import Mathlib

/-!
Shallow embedding of the project-calendar application core: date-range
normalization, calendar and timeline projection, filtering, label
normalization, persistence fallback, and the mutation operations
(create, save, delete-project, drag-reschedule).

Calendar dates are modelled as integer day ordinals (days since an
arbitrary epoch).  The source stores dates as yyyy-MM-dd strings and
converts with parseISO / format / addDays / differenceInCalendarDays,
all of which act on whole calendar days, so each well-formed date
string corresponds to exactly one ordinal and comparisons of parsed
dates agree with comparisons of ordinals.  Where the source does
millisecond timestamp arithmetic on Date values (the timeline
projector and daysInMonth), the embedding uses the timestamp of
midnight of a day ordinal, dayMs d = d * 86400000, and endOfMonth is
the last millisecond of the month, exactly as date-fns produces.
-/

/-- Milestone record, mirroring the source type: id, title, start date,
optional inclusive end date, optional notes, owning project id,
optional label list. -/
structure Milestone where
  id : String
  title : String
  date : Int
  endDate : Option Int
  notes : Option String
  projectId : String
  labels : Option (List String)
deriving DecidableEq

/-- Project record: id, name, color. -/
structure Project where
  id : String
  name : String
  color : String
deriving DecidableEq

/-- date-fns differenceInCalendarDays on day ordinals. -/
def differenceInCalendarDays (a b : Int) : Int := a - b

/-- safeEnd from the source: missing end gives the start; an end
earlier than the start is clamped to the start; otherwise the end. -/
def safeEnd (startISO : Int) (endISO : Option Int) : Int :=
  match endISO with
  | none => startISO
  | some e => if e < startISO then startISO else e

/-- durationDays from the source: inclusive day count of the
normalized range. -/
def durationDays (startISO : Int) (endISO : Option Int) : Int :=
  differenceInCalendarDays (safeEnd startISO endISO) startISO + 1

/-- hasAllLabels from the source: every required label is contained in
the milestone's label list (undefined treated as empty). -/
def hasAllLabels (labels : Option (List String)) (required : List String) : Bool :=
  required.all fun r => (labels.getD []).contains r

/-- applyFilters from the source: keep milestones matching the project
filter (sentinel value "all" passes everything), then keep milestones
carrying all filter labels (an empty label filter passes everything). -/
def applyFilters (ms : List Milestone) (filterProjectId : String)
    (filterLabels : List String) : List Milestone :=
  (ms.filter fun m =>
    if filterProjectId = "all" then true else m.projectId == filterProjectId).filter
    fun m =>
      if filterLabels.length ≠ 0 then hasAllLabels m.labels filterLabels else true

/-- Auxiliary for the regex replace of whitespace runs: walks the
characters keeping a flag that records whether the previous character
was whitespace, so each maximal run of whitespace becomes one hyphen. -/
def collapseWSAux : Bool → List Char → List Char
  | _, [] => []
  | prevWS, c :: rest =>
    if c.isWhitespace then
      if prevWS then collapseWSAux true rest
      else '-' :: collapseWSAux true rest
    else c :: collapseWSAux false rest

/-- The JS replace of every whitespace run by a single hyphen. -/
def collapseWS (l : List Char) : List Char := collapseWSAux false l

/-- JS String.prototype.trim on a character list: drop leading and
trailing whitespace. -/
def jsTrim (l : List Char) : List Char :=
  ((l.dropWhile Char.isWhitespace).reverse.dropWhile Char.isWhitespace).reverse

/-- JS toLowerCase restricted to the ASCII letters the labels use. -/
def lowerChar (c : Char) : Char :=
  if 65 ≤ c.toNat ∧ c.toNat ≤ 90 then Char.ofNat (c.toNat + 32) else c

/-- The label normalization of the source, applied both in the tag
input and at save time: trim, lowercase, collapse whitespace runs to
single hyphens. -/
def normalizeLabel (t : String) : String :=
  String.mk (collapseWS ((jsTrim t.data).map lowerChar))

/-- JS String.prototype.trim on strings (used by the title guards). -/
def trimStr (s : String) : String := String.mk (jsTrim s.data)

/-- The add handler of the tag input: normalize the draft, drop it if
it is empty or already present, otherwise append it. -/
def tagAdd (value : List String) (raw : String) : List String :=
  let t := normalizeLabel raw
  if t = "" then value
  else if value.contains t then value
  else value ++ [t]

/-- The label mapping applied by addMilestone and saveDraft: a plain
map of the normalization over the list. -/
def saveNormalize (labels : List String) : List String := labels.map normalizeLabel

/-- One step of first-occurrence deduplication: append an element only
if it has not been seen. -/
def dedupStep (acc : List String) (x : String) : List String :=
  if acc.contains x then acc else acc ++ [x]

/-- First-occurrence deduplication of a list: each element is kept at
the position of its first occurrence, later duplicates are dropped. -/
def dedupKeepFirst (l : List String) : List String := l.foldl dedupStep []

/-- Append a milestone to the bucket of one day key. -/
def addToBucket (map : Int → List Milestone) (d : Int) (m : Milestone) :
    Int → List Milestone :=
  fun k => if k = d then map k ++ [m] else map k

/-- The day loop of milestonesByDay: append the milestone to the
buckets of the n consecutive days starting at s. -/
def addRange (m : Milestone) : Int → Nat → (Int → List Milestone) →
    (Int → List Milestone)
  | _, 0, map => map
  | s, n+1, map => addRange m (s+1) n (addToBucket map s m)

/-- The fold of milestonesByDay over the filtered milestone list. -/
def bucketsFold (l : List Milestone) (map0 : Int → List Milestone) :
    Int → List Milestone :=
  l.foldl (fun mp m =>
    addRange m m.date (safeEnd m.date m.endDate - m.date + 1).toNat mp) map0

/-- milestonesByDay from the source: for every filtered milestone,
walk the days of its normalized range and append it to each day's
bucket; a missing key reads as the empty bucket. -/
def milestonesByDay (ms : List Milestone) (pf : String) (lf : List String) :
    Int → List Milestone :=
  bucketsFold (applyFilters ms pf lf) (fun _ => [])

/-- Milliseconds per day, the constant of the source. -/
def msPerDay : Int := 86400000

/-- Timestamp of midnight of a day ordinal. -/
def dayMs (d : Int) : Int := d * msPerDay

/-- JS Math.floor of an integer quotient p / q. -/
def mathFloorDiv (p q : Int) : Int := Int.fdiv p q

/-- JS Math.round of an integer quotient p / q: floor (p / q + 1 / 2),
computed exactly as floor ((2 p + q) / (2 q)). -/
def mathRoundDiv (p q : Int) : Int := Int.fdiv (2 * p + q) (2 * q)

/-- date-fns startOfMonth as a timestamp: midnight of the first day. -/
def startOfMonthMs (monthStart : Int) : Int := dayMs monthStart

/-- date-fns endOfMonth as a timestamp: the last millisecond
(23:59:59.999) of the last day of a month of monthLen days. -/
def endOfMonthMs (monthStart : Int) (monthLen : Nat) : Int :=
  dayMs (monthStart + monthLen - 1) + (msPerDay - 1)

/-- daysInMonth from the source: Math.round of the timestamp span of
the month divided by the milliseconds of a day, plus one. -/
def daysInMonth (monthStart : Int) (monthLen : Nat) : Int :=
  mathRoundDiv (endOfMonthMs monthStart monthLen - startOfMonthMs monthStart)
    msPerDay + 1

/-- One row item of the timeline projection. -/
structure TimelineItem where
  id : String
  title : String
  notes : String
  startIndex : Int
  endIndex : Int
deriving DecidableEq

/-- One row of the timeline projection: a project with its items. -/
structure TimelineRow where
  project : Project
  items : List TimelineItem
deriving DecidableEq

/-- The month-overlap test of timelineRows: the parsed effective end
is at or after startOfMonth and the parsed start is at or before
endOfMonth (Date comparisons, i.e. timestamp comparisons). -/
def overlapsMonth (monthStart : Int) (monthLen : Nat) (m : Milestone) : Bool :=
  decide (startOfMonthMs monthStart ≤ dayMs (safeEnd m.date m.endDate)) &&
  decide (dayMs m.date ≤ endOfMonthMs monthStart monthLen)

/-- The item construction of timelineRows: startIndex is the floored
day offset of the start from the month start clamped below by 0,
endIndex is the floored day offset of the effective end clamped above
by daysInMonth - 1. -/
def timelineItemOf (monthStart : Int) (monthLen : Nat) (m : Milestone) :
    TimelineItem :=
  { id := m.id, title := m.title, notes := m.notes.getD "",
    startIndex := max 0 (mathFloorDiv (dayMs m.date - startOfMonthMs monthStart) msPerDay),
    endIndex := min (daysInMonth monthStart monthLen - 1)
      (mathFloorDiv (dayMs (safeEnd m.date m.endDate) - startOfMonthMs monthStart) msPerDay) }

/-- timelineRows from the source: for every project, the filtered
milestones of that project that overlap the visible month, mapped to
their clamped day-index items. -/
def timelineRows (projects : List Project) (milestones : List Milestone)
    (pf : String) (lf : List String) (monthStart : Int) (monthLen : Nat) :
    List TimelineRow :=
  projects.map fun p =>
    { project := p,
      items := (((applyFilters milestones pf lf).filter
          fun m => m.projectId == p.id).filter
          (overlapsMonth monthStart monthLen)).map
          (timelineItemOf monthStart monthLen) }

/-- The two collections of the application. -/
structure AppState where
  projects : List Project
  milestones : List Milestone
deriving DecidableEq

/-- deleteProject from the source: remove the project and every
milestone referencing it. -/
def deleteProject (st : AppState) (pid : String) : AppState :=
  { projects := st.projects.filter fun p => !(p.id == pid),
    milestones := st.milestones.filter fun m => !(m.projectId == pid) }

/-- The fields of the quick-add and modal forms. -/
structure MilestoneForm where
  title : String
  date : Int
  endDate : Int
  projectId : String
  notes : String
  labels : List String
deriving DecidableEq

/-- addMilestone from the source (quick-add): no-op unless the trimmed
title is non-empty and a project is selected; otherwise append a new
milestone with normalized end date and labels. -/
def addMilestone (milestones : List Milestone) (form : MilestoneForm)
    (newId : String) : List Milestone :=
  if trimStr form.title = "" ∨ form.projectId = "" then milestones
  else
    milestones ++ [{ id := newId, title := trimStr form.title, date := form.date,
                     endDate := some (safeEnd form.date (some form.endDate)),
                     notes := some form.notes, projectId := form.projectId,
                     labels := some (saveNormalize form.labels) }]

/-- saveDraft from the source (modal save): no-op under the same
guard; when editing, update the matching milestone in place, otherwise
append a new one. -/
def saveDraft (milestones : List Milestone) (draft : MilestoneForm)
    (editingId : Option String) (newId : String) : List Milestone :=
  if trimStr draft.title = "" ∨ draft.projectId = "" then milestones
  else
    match editingId with
    | some eid =>
        milestones.map fun m =>
          if m.id == eid then
            { m with title := trimStr draft.title, date := draft.date,
                     endDate := some (safeEnd draft.date (some draft.endDate)),
                     projectId := draft.projectId, notes := some draft.notes,
                     labels := some (saveNormalize draft.labels) }
          else m
    | none =>
        milestones ++ [{ id := newId, title := trimStr draft.title, date := draft.date,
                         endDate := some (safeEnd draft.date (some draft.endDate)),
                         notes := some draft.notes, projectId := draft.projectId,
                         labels := some (saveNormalize draft.labels) }]

/-- The drag-reschedule update of onDropOnDay: keep the duration,
move the start to the drop day and the end to start + duration - 1. -/
def rescheduleMilestone (m : Milestone) (newStart : Int) : Milestone :=
  let dur := durationDays m.date m.endDate
  { m with date := newStart, endDate := some (newStart + max 0 (dur - 1)) }

/-- onDropOnDay from the source: no-op on an empty drag payload,
otherwise map over the collection rescheduling the milestone whose id
matches. -/
def onDropOnDay (ms : List Milestone) (dragId : String) (day : Int) :
    List Milestone :=
  if dragId = "" then ms
  else ms.map fun m => if m.id ≠ dragId then m else rescheduleMilestone m day

/-- readLS from the source: a missing or empty stored record yields
the fallback, an unparseable one (JSON.parse throwing, modelled by the
parse function returning none) yields the fallback via the catch,
and a parseable one is returned as-is. -/
def readLS {α : Type} (parse : String → Option α) (stored : Option String)
    (fallback : α) : α :=
  match stored with
  | none => fallback
  | some raw =>
    if raw = "" then fallback
    else
      match parse raw with
      | some v => v
      | none => fallback

theorem safeEnd_ge (s : Int) (e : Option Int) : s ≤ safeEnd s e := by
  cases e with
  | none => simp [safeEnd]
  | some v =>
    simp only [safeEnd]
    split <;> omega

theorem safeEnd_none (s : Int) : safeEnd s none = s := rfl

theorem safeEnd_some_of_lt {s e : Int} (h : e < s) : safeEnd s (some e) = s := by
  simp [safeEnd, h]

theorem safeEnd_some_of_ge {s e : Int} (h : s ≤ e) : safeEnd s (some e) = e := by
  simp [safeEnd]
  omega

theorem durationDays_pos (s : Int) (e : Option Int) : 1 ≤ durationDays s e := by
  have h := safeEnd_ge s e
  simp only [durationDays, differenceInCalendarDays]
  omega

/-- Claim C1: the date-range normalizer returns effectiveEnd = start
when the end is absent or earlier than the start (clamp, not an
error), and the end itself otherwise; durationDays is the calendar-day
difference of the effective end and the start plus one, and is always
at least 1; in particular an absent or clamped end yields duration 1. -/
theorem safeEnd_durationDays_spec (s e : Int) :
    safeEnd s none = s
    ∧ durationDays s none = 1
    ∧ (e < s → safeEnd s (some e) = s ∧ durationDays s (some e) = 1)
    ∧ (s ≤ e → safeEnd s (some e) = e ∧ durationDays s (some e) = e - s + 1)
    ∧ ∀ eo : Option Int,
        durationDays s eo = differenceInCalendarDays (safeEnd s eo) s + 1
        ∧ 1 ≤ durationDays s eo := by
  refine ⟨rfl, ?_, ?_, ?_, ?_⟩
  · simp [durationDays, differenceInCalendarDays, safeEnd]
  · intro h
    have h1 := safeEnd_some_of_lt h
    exact ⟨h1, by simp [durationDays, differenceInCalendarDays, h1]⟩
  · intro h
    have h1 := safeEnd_some_of_ge h
    exact ⟨h1, by simp [durationDays, differenceInCalendarDays, h1]⟩
  · intro eo
    exact ⟨rfl, durationDays_pos s eo⟩

/-- Witness for C1 at concrete inputs: a clamped range (end 5 before
start 10) and an ordinary range (3 to 7). -/
theorem safeEnd_durationDays_spec_w :
    safeEnd 10 (some 5) = 10 ∧ durationDays 10 (some 5) = 1
    ∧ safeEnd 3 (some 7) = 7 ∧ durationDays 3 (some 7) = 5
    ∧ safeEnd 10 none = 10 ∧ durationDays 10 none = 1 := by
  have h1 := (safeEnd_durationDays_spec 10 5).2.2.1 (by decide)
  have h2 := (safeEnd_durationDays_spec 3 7).2.2.2.1 (by decide)
  have h3 := (safeEnd_durationDays_spec 10 5).1
  have h4 := (safeEnd_durationDays_spec 10 5).2.1
  exact ⟨h1.1, h1.2, h2.1, by rw [h2.2]; decide, h3, h4⟩

theorem hasAllLabels_iff (labels : Option (List String)) (required : List String) :
    hasAllLabels labels required = true ↔ ∀ r ∈ required, r ∈ labels.getD [] := by
  simp [hasAllLabels]

/-- Claim C4: the filter engine returns an order-preserving sublist of
the input containing exactly the milestones that match the project
filter (the sentinel "all" passes everything) and carry every label of
the label filter (AND semantics, an empty label filter passes
everything); the result is never longer than the input and no
milestone satisfying both predicates is omitted. -/
theorem applyFilters_spec (ms : List Milestone) (pf : String) (lf : List String) :
    applyFilters ms pf lf =
      ms.filter (fun m => (pf == "all" || m.projectId == pf) && hasAllLabels m.labels lf)
    ∧ (applyFilters ms pf lf).Sublist ms
    ∧ (applyFilters ms pf lf).length ≤ ms.length
    ∧ (∀ m : Milestone, m ∈ applyFilters ms pf lf ↔
        m ∈ ms ∧ (pf = "all" ∨ m.projectId = pf) ∧ ∀ r ∈ lf, r ∈ m.labels.getD []) := by
  have hpred : ∀ m ∈ ms,
      ((if lf.length ≠ 0 then hasAllLabels m.labels lf else true) &&
        (if pf = "all" then true else m.projectId == pf))
      = ((pf == "all" || m.projectId == pf) && hasAllLabels m.labels lf) := by
    intro m _
    cases lf with
    | nil => by_cases hpf : pf = "all" <;> simp [hpf, hasAllLabels]
    | cons r rs =>
      by_cases hpf : pf = "all"
      · simp [hpf, Bool.and_comm]
      · have hb : (pf == "all") = false := by simp [hpf]
        simp [hpf, hb, Bool.and_comm]
  have h1 : applyFilters ms pf lf =
      ms.filter (fun m => (pf == "all" || m.projectId == pf) && hasAllLabels m.labels lf) := by
    rw [applyFilters, List.filter_filter]
    exact List.filter_congr hpred
  refine ⟨h1, ?_, ?_, ?_⟩
  · rw [h1]; exact List.filter_sublist ms
  · rw [h1]; exact (List.filter_sublist ms).length_le
  · intro m
    rw [h1, List.mem_filter]
    constructor
    · rintro ⟨hm, hp⟩
      rw [Bool.and_eq_true, Bool.or_eq_true] at hp
      refine ⟨hm, ?_, (hasAllLabels_iff m.labels lf).mp hp.2⟩
      rcases hp.1 with h | h
      · exact Or.inl (beq_iff_eq.mp h)
      · exact Or.inr (beq_iff_eq.mp h)
    · rintro ⟨hm, hpf, hlf⟩
      refine ⟨hm, ?_⟩
      rw [Bool.and_eq_true, Bool.or_eq_true]
      refine ⟨?_, (hasAllLabels_iff m.labels lf).mpr hlf⟩
      rcases hpf with h | h
      · exact Or.inl (by simp [h])
      · exact Or.inr (by simp [h])

/-- Witness for C4: a two-milestone list filtered by a label keeps
exactly the matching milestone. -/
theorem applyFilters_spec_w :
    applyFilters
      [(⟨"m1", "Kickoff", 0, none, none, "p1", some ["risk-item"]⟩ : Milestone),
       (⟨"m2", "Beta", 4, some 9, none, "p1", none⟩ : Milestone)]
      "all" ["risk-item"]
    = [(⟨"m1", "Kickoff", 0, none, none, "p1", some ["risk-item"]⟩ : Milestone)] :=
  (applyFilters_spec
      [(⟨"m1", "Kickoff", 0, none, none, "p1", some ["risk-item"]⟩ : Milestone),
       (⟨"m2", "Beta", 4, some 9, none, "p1", none⟩ : Milestone)]
      "all" ["risk-item"]).1.trans (by decide)

theorem rescheduleMilestone_fields (m : Milestone) (d : Int) :
    (rescheduleMilestone m d).id = m.id
    ∧ (rescheduleMilestone m d).title = m.title
    ∧ (rescheduleMilestone m d).notes = m.notes
    ∧ (rescheduleMilestone m d).labels = m.labels
    ∧ (rescheduleMilestone m d).projectId = m.projectId :=
  ⟨rfl, rfl, rfl, rfl, rfl⟩

/-- Claim C5: the reschedule-by-drag update moves the milestone so
that its new effective end is the new start plus duration minus one,
and therefore its duration is exactly preserved. -/
theorem reschedule_preserves_duration (m : Milestone) (newStart : Int) :
    safeEnd (rescheduleMilestone m newStart).date (rescheduleMilestone m newStart).endDate
      = newStart + (durationDays m.date m.endDate - 1)
    ∧ durationDays (rescheduleMilestone m newStart).date (rescheduleMilestone m newStart).endDate
      = durationDays m.date m.endDate := by
  have hd := durationDays_pos m.date m.endDate
  have hmax : max 0 (durationDays m.date m.endDate - 1)
      = durationDays m.date m.endDate - 1 := by omega
  have hse : safeEnd newStart (some (newStart + (durationDays m.date m.endDate - 1)))
      = newStart + (durationDays m.date m.endDate - 1) :=
    safeEnd_some_of_ge (by omega)
  constructor
  · show safeEnd newStart (some (newStart + max 0 (durationDays m.date m.endDate - 1)))
      = newStart + (durationDays m.date m.endDate - 1)
    rw [hmax, hse]
  · show durationDays newStart (some (newStart + max 0 (durationDays m.date m.endDate - 1)))
      = durationDays m.date m.endDate
    rw [durationDays, differenceInCalendarDays, hmax, hse]
    omega

/-- Claim C7: deleting a project removes every milestone referencing
it, keeps both collections as order-preserving sublists, keeps every
other project and milestone, and membership in the results is exactly
original membership minus the deleted project's entries. -/
theorem deleteProject_cascades (st : AppState) (pid : String) :
    (∀ m ∈ (deleteProject st pid).milestones, m.projectId ≠ pid)
    ∧ (deleteProject st pid).projects.Sublist st.projects
    ∧ (deleteProject st pid).milestones.Sublist st.milestones
    ∧ (∀ p ∈ st.projects, p.id ≠ pid → p ∈ (deleteProject st pid).projects)
    ∧ (∀ m ∈ st.milestones, m.projectId ≠ pid → m ∈ (deleteProject st pid).milestones)
    ∧ (∀ p : Project, p ∈ (deleteProject st pid).projects ↔ p ∈ st.projects ∧ p.id ≠ pid)
    ∧ (∀ m : Milestone, m ∈ (deleteProject st pid).milestones ↔
        m ∈ st.milestones ∧ m.projectId ≠ pid) := by
  refine ⟨?_, ?_, ?_, ?_, ?_, ?_, ?_⟩
  · intro m hm
    rw [deleteProject] at hm
    simp only [List.mem_filter] at hm
    simpa using hm.2
  · exact List.filter_sublist st.projects
  · exact List.filter_sublist st.milestones
  · intro p hp hne
    rw [deleteProject]
    simp only [List.mem_filter]
    exact ⟨hp, by simpa using hne⟩
  · intro m hm hne
    rw [deleteProject]
    simp only [List.mem_filter]
    exact ⟨hm, by simpa using hne⟩
  · intro p
    rw [deleteProject]
    simp [List.mem_filter]
  · intro m
    rw [deleteProject]
    simp [List.mem_filter]

/-- Witness for C7: deleting project p1 keeps the milestone of p2 and
the project p2 themselves. -/
theorem deleteProject_cascades_w :
    (⟨"m2", "Beta", 4, some 9, none, "p2", none⟩ : Milestone) ∈
      (deleteProject
        ⟨[⟨"p1", "Launch", "#0ea5e9"⟩, ⟨"p2", "Other", "#ef4444"⟩],
         [⟨"m1", "Kickoff", 0, none, none, "p1", none⟩,
          ⟨"m2", "Beta", 4, some 9, none, "p2", none⟩]⟩ "p1").milestones
    ∧ (⟨"p2", "Other", "#ef4444"⟩ : Project) ∈
      (deleteProject
        ⟨[⟨"p1", "Launch", "#0ea5e9"⟩, ⟨"p2", "Other", "#ef4444"⟩],
         [⟨"m1", "Kickoff", 0, none, none, "p1", none⟩,
          ⟨"m2", "Beta", 4, some 9, none, "p2", none⟩]⟩ "p1").projects :=
  ⟨(deleteProject_cascades
      ⟨[⟨"p1", "Launch", "#0ea5e9"⟩, ⟨"p2", "Other", "#ef4444"⟩],
       [⟨"m1", "Kickoff", 0, none, none, "p1", none⟩,
        ⟨"m2", "Beta", 4, some 9, none, "p2", none⟩]⟩ "p1").2.2.2.2.1
      ⟨"m2", "Beta", 4, some 9, none, "p2", none⟩ (by decide) (by decide),
   (deleteProject_cascades
      ⟨[⟨"p1", "Launch", "#0ea5e9"⟩, ⟨"p2", "Other", "#ef4444"⟩],
       [⟨"m1", "Kickoff", 0, none, none, "p1", none⟩,
        ⟨"m2", "Beta", 4, some 9, none, "p2", none⟩]⟩ "p1").2.2.2.1
      ⟨"p2", "Other", "#ef4444"⟩ (by decide) (by decide)⟩

/-- Claim C8: with an empty (or whitespace-only) trimmed title or an
absent project reference, both the quick-add and the modal save are
rejected before any state change: the milestone collection is exactly
unchanged. -/
theorem invalid_save_noop (milestones : List Milestone) (form : MilestoneForm)
    (editingId : Option String) (newId : String)
    (h : trimStr form.title = "" ∨ form.projectId = "") :
    addMilestone milestones form newId = milestones
    ∧ saveDraft milestones form editingId newId = milestones := by
  constructor
  · rw [addMilestone, if_pos h]
  · rw [saveDraft.eq_def, if_pos h]

/-- Witness for C8: a whitespace-only title is rejected by both save
paths. -/
theorem invalid_save_noop_w :
    addMilestone [] (⟨"   ", 0, 0, "p1", "", []⟩ : MilestoneForm) "id1" = []
    ∧ saveDraft [] (⟨"   ", 0, 0, "p1", "", []⟩ : MilestoneForm) none "id1" = [] :=
  invalid_save_noop [] ⟨"   ", 0, 0, "p1", "", []⟩ none "id1" (Or.inl (by decide))

/-- Claim C9: the persistence reader returns the empty-array fallback
when the stored record is missing or its contents are unparseable (the
parse throwing is modelled by the parse function returning none), and
returns a parseable stored record as-is. -/
theorem readLS_fallback_spec (parse : String → Option (List Milestone)) (raw : String) :
    readLS parse none ([] : List Milestone) = []
    ∧ (parse raw = none → readLS parse (some raw) ([] : List Milestone) = [])
    ∧ (∀ v : List Milestone, raw ≠ "" → parse raw = some v →
        readLS parse (some raw) ([] : List Milestone) = v) := by
  refine ⟨rfl, ?_, ?_⟩
  · intro h
    by_cases hr : raw = "" <;> simp [readLS, hr, h]
  · intro v hne hp
    simp [readLS, hne, hp]

/-- Witness for C9 with a concrete parse function: a missing record, an
unparseable record, and a parseable record. -/
theorem readLS_fallback_spec_w :
    readLS (fun s => if s = "good"
        then some [(⟨"m1", "Kickoff", 0, none, none, "p1", none⟩ : Milestone)]
        else none) none ([] : List Milestone) = []
    ∧ readLS (fun s => if s = "good"
        then some [(⟨"m1", "Kickoff", 0, none, none, "p1", none⟩ : Milestone)]
        else none) (some "bad") ([] : List Milestone) = []
    ∧ readLS (fun s => if s = "good"
        then some [(⟨"m1", "Kickoff", 0, none, none, "p1", none⟩ : Milestone)]
        else none) (some "good") ([] : List Milestone)
      = [(⟨"m1", "Kickoff", 0, none, none, "p1", none⟩ : Milestone)] :=
  ⟨(readLS_fallback_spec (fun s => if s = "good"
        then some [(⟨"m1", "Kickoff", 0, none, none, "p1", none⟩ : Milestone)]
        else none) "bad").1,
   (readLS_fallback_spec (fun s => if s = "good"
        then some [(⟨"m1", "Kickoff", 0, none, none, "p1", none⟩ : Milestone)]
        else none) "bad").2.1 (by decide),
   (readLS_fallback_spec (fun s => if s = "good"
        then some [(⟨"m1", "Kickoff", 0, none, none, "p1", none⟩ : Milestone)]
        else none) "good").2.2
      [(⟨"m1", "Kickoff", 0, none, none, "p1", none⟩ : Milestone)]
      (by decide) (by decide)⟩

/-- Claim C10: the drop handler preserves the collection's length and
order, changes at most the date and endDate fields of the milestone
whose id matches the drag payload (id, title, notes, labels and
projectId are untouched), leaves every non-matching milestone exactly
unchanged, and is a no-op when no milestone carries the dragged id. -/
theorem onDropOnDay_frame (ms : List Milestone) (dragId : String) (day : Int) :
    (onDropOnDay ms dragId day).length = ms.length
    ∧ (∀ k : Nat, (onDropOnDay ms dragId day)[k]? =
        (ms[k]?).map (fun m =>
          if dragId = "" ∨ m.id ≠ dragId then m else rescheduleMilestone m day))
    ∧ (∀ k : Nat, ∀ m ∈ ms[k]?, ∀ m2 ∈ (onDropOnDay ms dragId day)[k]?,
        m2.id = m.id ∧ m2.title = m.title ∧ m2.notes = m.notes
        ∧ m2.labels = m.labels ∧ m2.projectId = m.projectId
        ∧ (m.id ≠ dragId → m2 = m))
    ∧ ((∀ m ∈ ms, m.id ≠ dragId) → onDropOnDay ms dragId day = ms) := by
  have hlen : (onDropOnDay ms dragId day).length = ms.length := by
    by_cases hid : dragId = "" <;> simp [onDropOnDay, hid]
  have h2 : ∀ k : Nat, (onDropOnDay ms dragId day)[k]? =
      (ms[k]?).map (fun m =>
        if dragId = "" ∨ m.id ≠ dragId then m else rescheduleMilestone m day) := by
    intro k
    by_cases hid : dragId = ""
    · rw [onDropOnDay, if_pos hid]
      cases h : ms[k]? <;> simp [h, hid]
    · rw [onDropOnDay, if_neg hid, List.getElem?_map]
      cases h : ms[k]? <;> simp [h, hid]
  refine ⟨hlen, h2, ?_, ?_⟩
  · intro k m hm m2 hm2
    rw [Option.mem_def] at hm hm2
    rw [h2 k, hm, Option.map_some'] at hm2
    have hm2e : m2 = if dragId = "" ∨ m.id ≠ dragId then m
        else rescheduleMilestone m day := (Option.some.inj hm2).symm
    subst hm2e
    split_ifs with hc
    · exact ⟨rfl, rfl, rfl, rfl, rfl, fun _ => rfl⟩
    · push_neg at hc
      exact ⟨rfl, rfl, rfl, rfl, rfl, fun hne => absurd hc.2 hne⟩
  · intro h
    rw [onDropOnDay]
    split
    · rfl
    · have hcong : ∀ m ∈ ms,
          (if m.id ≠ dragId then m else rescheduleMilestone m day) = m :=
        fun m hm => if_pos (h m hm)
      exact (List.map_congr_left hcong).trans (List.map_id' ms)

/-- Witness for C10: dragging milestone m1 keeps the collection length
and dragging an id that matches nothing is an exact no-op. -/
theorem onDropOnDay_frame_w :
    (onDropOnDay
      [(⟨"m1", "Kickoff", 0, some 2, none, "p1", none⟩ : Milestone),
       (⟨"m2", "Beta", 4, some 9, none, "p1", none⟩ : Milestone)] "m1" 10).length = 2
    ∧ onDropOnDay
      [(⟨"m1", "Kickoff", 0, some 2, none, "p1", none⟩ : Milestone),
       (⟨"m2", "Beta", 4, some 9, none, "p1", none⟩ : Milestone)] "zzz" 10
      = [(⟨"m1", "Kickoff", 0, some 2, none, "p1", none⟩ : Milestone),
         (⟨"m2", "Beta", 4, some 9, none, "p1", none⟩ : Milestone)] :=
  ⟨((onDropOnDay_frame
      [(⟨"m1", "Kickoff", 0, some 2, none, "p1", none⟩ : Milestone),
       (⟨"m2", "Beta", 4, some 9, none, "p1", none⟩ : Milestone)] "m1" 10).1).trans (by decide),
   (onDropOnDay_frame
      [(⟨"m1", "Kickoff", 0, some 2, none, "p1", none⟩ : Milestone),
       (⟨"m2", "Beta", 4, some 9, none, "p1", none⟩ : Milestone)] "zzz" 10).2.2.2 (by decide)⟩

theorem addRange_apply (m : Milestone) (s : Int) (n : Nat)
    (map : Int → List Milestone) (k : Int) :
    addRange m s n map k = if s ≤ k ∧ k < s + n then map k ++ [m] else map k := by
  induction n generalizing s map with
  | zero =>
    simp only [addRange]
    rw [if_neg (by omega)]
  | succ n ih =>
    simp only [addRange]
    rw [ih]
    simp only [addToBucket]
    split_ifs <;> first | rfl | omega

theorem bucketsFold_apply (l : List Milestone) (map0 : Int → List Milestone) (k : Int) :
    bucketsFold l map0 k = map0 k ++ (l.filter fun m =>
      decide (m.date ≤ k) && decide (k ≤ safeEnd m.date m.endDate)) := by
  induction l generalizing map0 with
  | nil => simp [bucketsFold]
  | cons m t ih =>
    have hstep : bucketsFold (m :: t) map0
        = bucketsFold t (addRange m m.date (safeEnd m.date m.endDate - m.date + 1).toNat map0) := rfl
    rw [hstep, ih, addRange_apply, List.filter_cons]
    have hge := safeEnd_ge m.date m.endDate
    have hD : (((safeEnd m.date m.endDate - m.date + 1).toNat : Int))
        = safeEnd m.date m.endDate - m.date + 1 :=
      Int.toNat_of_nonneg (by omega)
    by_cases hp : m.date ≤ k ∧ k ≤ safeEnd m.date m.endDate
    · rw [if_pos (by omega), if_pos (by simp [hp.1, hp.2])]
      simp
    · rw [if_neg (by omega), if_neg (by simp; omega)]

/-- Claim C3: a day's calendar bucket is exactly the filtered input
list restricted to the milestones whose normalized range contains the
day (hence an order-preserving sublist of the filtered list, so input
order is kept); a filtered milestone is in the bucket of a day iff the
day lies between its start and effective end, the number of such days
is its durationDays, and its multiplicity in a bucket equals its
multiplicity in the filtered list on covered days and zero elsewhere. -/
theorem milestonesByDay_spec (ms : List Milestone) (pf : String)
    (lf : List String) (k : Int) :
    milestonesByDay ms pf lf k = (applyFilters ms pf lf).filter
      (fun m => decide (m.date ≤ k) && decide (k ≤ safeEnd m.date m.endDate))
    ∧ (milestonesByDay ms pf lf k).Sublist (applyFilters ms pf lf)
    ∧ (∀ m ∈ applyFilters ms pf lf,
        (m ∈ milestonesByDay ms pf lf k ↔ m.date ≤ k ∧ k ≤ safeEnd m.date m.endDate)
        ∧ (((Finset.Icc m.date (safeEnd m.date m.endDate)).card : Int)
            = durationDays m.date m.endDate))
    ∧ (∀ m : Milestone, (milestonesByDay ms pf lf k).count m
        = if m.date ≤ k ∧ k ≤ safeEnd m.date m.endDate
          then (applyFilters ms pf lf).count m else 0) := by
  have hchar : milestonesByDay ms pf lf k = (applyFilters ms pf lf).filter
      (fun m => decide (m.date ≤ k) && decide (k ≤ safeEnd m.date m.endDate)) := by
    rw [milestonesByDay, bucketsFold_apply]
    rfl
  refine ⟨hchar, ?_, ?_, ?_⟩
  · rw [hchar]; exact List.filter_sublist _
  · intro m hm
    constructor
    · rw [hchar, List.mem_filter]
      constructor
      · rintro ⟨_, hp⟩
        rw [Bool.and_eq_true, decide_eq_true_eq, decide_eq_true_eq] at hp
        exact hp
      · intro hp
        exact ⟨hm, by simp [hp.1, hp.2]⟩
    · have hge := safeEnd_ge m.date m.endDate
      rw [Int.card_Icc, Int.toNat_of_nonneg (by omega)]
      rw [durationDays, differenceInCalendarDays]
      ring
  · intro m
    rw [hchar]
    by_cases hp : m.date ≤ k ∧ k ≤ safeEnd m.date m.endDate
    · rw [if_pos hp]
      exact List.count_filter (by simp [hp.1, hp.2])
    · rw [if_neg hp]
      rw [List.count_eq_zero]
      intro hmem
      rw [List.mem_filter, Bool.and_eq_true, decide_eq_true_eq, decide_eq_true_eq] at hmem
      exact hp ⟨hmem.2.1, hmem.2.2⟩

/-- Witness for C3 at the spec's example: a milestone spanning days 0
to 2 (2025-01-01 to 2025-01-03) appears in exactly the buckets of days
0, 1 and 2 and in no other bucket. -/
theorem milestonesByDay_spec_w :
    milestonesByDay [(⟨"m1", "Kickoff", 0, some 2, none, "p1", none⟩ : Milestone)]
      "all" [] 0 = [(⟨"m1", "Kickoff", 0, some 2, none, "p1", none⟩ : Milestone)]
    ∧ milestonesByDay [(⟨"m1", "Kickoff", 0, some 2, none, "p1", none⟩ : Milestone)]
      "all" [] 1 = [(⟨"m1", "Kickoff", 0, some 2, none, "p1", none⟩ : Milestone)]
    ∧ milestonesByDay [(⟨"m1", "Kickoff", 0, some 2, none, "p1", none⟩ : Milestone)]
      "all" [] 2 = [(⟨"m1", "Kickoff", 0, some 2, none, "p1", none⟩ : Milestone)]
    ∧ milestonesByDay [(⟨"m1", "Kickoff", 0, some 2, none, "p1", none⟩ : Milestone)]
      "all" [] 3 = []
    ∧ (⟨"m1", "Kickoff", 0, some 2, none, "p1", none⟩ : Milestone) ∈
      milestonesByDay [(⟨"m1", "Kickoff", 0, some 2, none, "p1", none⟩ : Milestone)]
        "all" [] 1 :=
  ⟨(milestonesByDay_spec [(⟨"m1", "Kickoff", 0, some 2, none, "p1", none⟩ : Milestone)]
      "all" [] 0).1.trans (by decide),
   (milestonesByDay_spec [(⟨"m1", "Kickoff", 0, some 2, none, "p1", none⟩ : Milestone)]
      "all" [] 1).1.trans (by decide),
   (milestonesByDay_spec [(⟨"m1", "Kickoff", 0, some 2, none, "p1", none⟩ : Milestone)]
      "all" [] 2).1.trans (by decide),
   (milestonesByDay_spec [(⟨"m1", "Kickoff", 0, some 2, none, "p1", none⟩ : Milestone)]
      "all" [] 3).1.trans (by decide),
   (((milestonesByDay_spec [(⟨"m1", "Kickoff", 0, some 2, none, "p1", none⟩ : Milestone)]
      "all" [] 1).2.2.1 ⟨"m1", "Kickoff", 0, some 2, none, "p1", none⟩
      (by decide)).1).mpr (by decide)⟩

theorem daysInMonth_plus_one (monthStart : Int) (monthLen : Nat) :
    daysInMonth monthStart (monthLen + 1) = (monthLen + 1 : Int) + 1 := by
  rw [daysInMonth, mathRoundDiv, endOfMonthMs, startOfMonthMs, dayMs, dayMs, msPerDay]
  have hnum : 2 * ((monthStart + (((monthLen + 1 : Nat) : Int)) - 1) * 86400000
        + (86400000 - 1) - monthStart * 86400000) + 86400000
      = (86400000 - 2) + 2 * 86400000 * (((monthLen + 1 : Nat) : Int)) := by
    push_cast
    ring
  rw [hnum]
  rw [Int.fdiv_eq_ediv _ (by norm_num)]
  rw [Int.add_mul_ediv_left _ _ (by norm_num : (2 * 86400000 : Int) ≠ 0)]
  rw [Int.ediv_eq_zero_of_lt (by norm_num) (by norm_num)]
  push_cast
  ring

/-- Claim C2 (code bug): for a 31-day month (January 2025, month start
day 0) the source's daysInMonth evaluates to 32 instead of 31, because
Math.round((endOfMonth - startOfMonth) / 86400000) already yields 31
(the span is 31 days minus one millisecond) and the code adds one more;
consequently a milestone starting before the month (day -17,
2024-12-15) and ending after it (day 40, 2025-02-10) is projected with
startDayIndex 0 but endDayIndex 31, one past the last day index 30 of
the month, instead of being clamped to the month boundary. -/
theorem timeline_daysInMonth_offByOne :
    daysInMonth 0 31 = 32
    ∧ timelineRows [(⟨"p1", "Launch", "#0ea5e9"⟩ : Project)]
        [(⟨"m1", "Span", -17, some 40, none, "p1", none⟩ : Milestone)] "all" [] 0 31
      = [⟨⟨"p1", "Launch", "#0ea5e9"⟩, [⟨"m1", "Span", "", 0, 31⟩]⟩]
    ∧ (timelineItemOf 0 31 ⟨"m1", "Span", -17, some 40, none, "p1", none⟩).startIndex = 0
    ∧ (timelineItemOf 0 31 ⟨"m1", "Span", -17, some 40, none, "p1", none⟩).endIndex = 31
    ∧ ¬ (timelineItemOf 0 31 ⟨"m1", "Span", -17, some 40, none, "p1", none⟩).endIndex
        ≤ 31 - 1 := by
  refine ⟨by decide, ?_, by decide, by decide, by decide⟩
  decide

theorem mem_collapseWSAux (c : Char) (l : List Char) :
    ∀ b : Bool, c ∈ collapseWSAux b l →
      c = '-' ∨ (c ∈ l ∧ c.isWhitespace = false) := by
  induction l with
  | nil => intro b h; simp [collapseWSAux] at h
  | cons a t ih =>
    intro b h
    simp only [collapseWSAux] at h
    split_ifs at h with h1 h2
    · rcases ih true h with h3 | h3
      · exact Or.inl h3
      · exact Or.inr ⟨List.mem_cons_of_mem a h3.1, h3.2⟩
    · rcases List.mem_cons.mp h with h3 | h3
      · exact Or.inl h3
      · rcases ih true h3 with h4 | h4
        · exact Or.inl h4
        · exact Or.inr ⟨List.mem_cons_of_mem a h4.1, h4.2⟩
    · rcases List.mem_cons.mp h with h3 | h3
      · rw [h3]
        exact Or.inr ⟨List.mem_cons_self a t, by simpa using h1⟩
      · rcases ih false h3 with h4 | h4
        · exact Or.inl h4
        · exact Or.inr ⟨List.mem_cons_of_mem a h4.1, h4.2⟩

theorem collapseWSAux_of_noWS (l : List Char) :
    ∀ b : Bool, (∀ c ∈ l, c.isWhitespace = false) → collapseWSAux b l = l := by
  induction l with
  | nil => intro b _; rfl
  | cons a t ih =>
    intro b h
    have ha : a.isWhitespace = false := h a (List.mem_cons_self a t)
    simp only [collapseWSAux, ha, Bool.false_eq_true, if_false]
    rw [ih false (fun c hc => h c (List.mem_cons_of_mem a hc))]

theorem collapseWS_noWS (l : List Char) :
    ∀ c ∈ collapseWS l, c.isWhitespace = false := by
  intro c hc
  rcases mem_collapseWSAux c l false hc with h | h
  · rw [h]; decide
  · exact h.2

theorem dropWhile_noWS (l : List Char) (h : ∀ c ∈ l, c.isWhitespace = false) :
    l.dropWhile Char.isWhitespace = l := by
  cases l with
  | nil => rfl
  | cons a t =>
    rw [List.dropWhile_cons, if_neg (by simp [h a (List.mem_cons_self a t)])]

theorem jsTrim_of_noWS (l : List Char) (h : ∀ c ∈ l, c.isWhitespace = false) :
    jsTrim l = l := by
  rw [jsTrim, dropWhile_noWS l h,
    dropWhile_noWS l.reverse (fun c hc => h c (List.mem_reverse.mp hc)),
    List.reverse_reverse]

theorem lowerChar_not_upper (c : Char) :
    ¬ (65 ≤ (lowerChar c).toNat ∧ (lowerChar c).toNat ≤ 90) := by
  rw [lowerChar]
  split_ifs with h
  · obtain ⟨h1, h2⟩ := h
    have key : ∀ n : Nat, 65 ≤ n → n ≤ 90 →
        ¬ (65 ≤ (Char.ofNat (n + 32)).toNat ∧ (Char.ofNat (n + 32)).toNat ≤ 90) := by
      intro n hn1 hn2
      interval_cases n <;> decide
    exact key c.toNat h1 h2
  · exact h

theorem lowerChar_fix {c : Char} (h : ¬ (65 ≤ c.toNat ∧ c.toNat ≤ 90)) :
    lowerChar c = c := by
  rw [lowerChar, if_neg h]

theorem lowerChar_idem (c : Char) : lowerChar (lowerChar c) = lowerChar c :=
  lowerChar_fix (lowerChar_not_upper c)

theorem normalizeLabel_idem (t : String) :
    normalizeLabel (normalizeLabel t) = normalizeLabel t := by
  have hnoWS := collapseWS_noWS ((jsTrim t.data).map lowerChar)
  have hfix : ∀ c ∈ collapseWS ((jsTrim t.data).map lowerChar), lowerChar c = c := by
    intro c hc
    rcases mem_collapseWSAux c _ false hc with h | h
    · rw [h]; decide
    · rcases List.mem_map.mp h.1 with ⟨d, _, hd⟩
      rw [← hd]
      exact lowerChar_idem d
  show String.mk (collapseWS ((jsTrim (normalizeLabel t).data).map lowerChar))
      = normalizeLabel t
  have hdata : (normalizeLabel t).data = collapseWS ((jsTrim t.data).map lowerChar) := rfl
  rw [hdata, jsTrim_of_noWS _ hnoWS,
    (List.map_congr_left hfix).trans (List.map_id' _),
    collapseWS, collapseWSAux_of_noWS _ false hnoWS]
  rfl

theorem foldl_tagAdd_eq (raws : List String) (acc : List String) :
    raws.foldl tagAdd acc
      = ((raws.map normalizeLabel).filter (fun t => t != "")).foldl dedupStep acc := by
  induction raws generalizing acc with
  | nil => rfl
  | cons r rs ih =>
    rw [List.foldl_cons, List.map_cons, List.filter_cons]
    by_cases h : normalizeLabel r = ""
    · rw [if_neg (by simp [h])]
      have ht : tagAdd acc r = acc := by
        show (if normalizeLabel r = "" then acc
          else if acc.contains (normalizeLabel r) then acc
          else acc ++ [normalizeLabel r]) = acc
        exact if_pos h
      rw [ht, ih]
    · rw [if_pos (by simp [h]), List.foldl_cons]
      have ht : tagAdd acc r = dedupStep acc (normalizeLabel r) := by
        show (if normalizeLabel r = "" then acc
          else if acc.contains (normalizeLabel r) then acc
          else acc ++ [normalizeLabel r]) = dedupStep acc (normalizeLabel r)
        rw [if_neg h]
        rfl
      rw [ht, ih]

theorem mem_foldl_dedupStep (l : List String) :
    ∀ (acc : List String) (x : String), x ∈ l.foldl dedupStep acc → x ∈ acc ∨ x ∈ l := by
  induction l with
  | nil => intro acc x h; exact Or.inl h
  | cons a t ih =>
    intro acc x h
    rw [List.foldl_cons] at h
    rcases ih (dedupStep acc a) x h with h1 | h1
    · rw [dedupStep] at h1
      split_ifs at h1 with hc
      · exact Or.inl h1
      · rcases List.mem_append.mp h1 with h2 | h2
        · exact Or.inl h2
        · exact Or.inr (List.mem_singleton.mp h2 ▸ List.mem_cons_self a t)
    · exact Or.inr (List.mem_cons_of_mem a h1)

theorem nodup_foldl_dedupStep (l : List String) :
    ∀ acc : List String, acc.Nodup → (l.foldl dedupStep acc).Nodup := by
  induction l with
  | nil => intro acc h; exact h
  | cons a t ih =>
    intro acc h
    rw [List.foldl_cons]
    apply ih
    rw [dedupStep]
    split_ifs with hc
    · exact h
    · rw [List.nodup_append]
      refine ⟨h, List.nodup_singleton a, ?_⟩
      intro x hx hxa
      rw [List.mem_singleton] at hxa
      subst hxa
      exact hc (by simpa using hx)

/-- Claim C6 (amended): the save-time label mapping applies the
normalization (trim, lowercase, whitespace runs to one hyphen) to each
label but by itself neither drops empty results nor deduplicates;
dropping of empty labels and first-occurrence deduplication happen at
entry time in the tag input, so a label list assembled through the tag
input equals the normalized raw sequence with empties dropped and
duplicates collapsed to their first occurrences, contains no empty
label, has no duplicates, and is mapped to itself by the save-time
normalization. -/
theorem labelPipeline_spec (raws : List String) :
    saveNormalize (raws.foldl tagAdd []) = raws.foldl tagAdd []
    ∧ (raws.foldl tagAdd []).Nodup
    ∧ "" ∉ raws.foldl tagAdd []
    ∧ raws.foldl tagAdd []
        = dedupKeepFirst ((raws.map normalizeLabel).filter (fun t => t != "")) := by
  have h0 : raws.foldl tagAdd []
      = ((raws.map normalizeLabel).filter (fun t => t != "")).foldl dedupStep [] :=
    foldl_tagAdd_eq raws []
  have hmem : ∀ x ∈ raws.foldl tagAdd [],
      x ∈ (raws.map normalizeLabel).filter (fun t => t != "") := by
    intro x hx
    rw [h0] at hx
    rcases mem_foldl_dedupStep _ [] x hx with h | h
    · exact absurd h (List.not_mem_nil x)
    · exact h
  refine ⟨?_, ?_, ?_, h0⟩
  · rw [saveNormalize]
    have hfix : ∀ x ∈ raws.foldl tagAdd [], normalizeLabel x = x := by
      intro x hx
      have h1 := hmem x hx
      rw [List.mem_filter] at h1
      rcases List.mem_map.mp h1.1 with ⟨r, _, hr⟩
      rw [← hr]
      exact normalizeLabel_idem r
    exact (List.map_congr_left hfix).trans (List.map_id' _)
  · rw [h0]
    exact nodup_foldl_dedupStep _ [] List.nodup_nil
  · intro hx
    have h1 := hmem "" hx
    rw [List.mem_filter] at h1
    simp at h1

/-- Counterexample for C6 as frozen: the mapping applied at save time
keeps labels that normalize to the empty string and keeps
post-normalization duplicates, so on the raw sequence of a
whitespace-only label, "x" and "X " it returns a list containing the
empty label and "x" twice instead of dropping and deduplicating. -/
theorem saveNormalize_keeps_empties_and_dups :
    saveNormalize ["  ", "x", "X "] = ["", "x", "x"]
    ∧ "" ∈ saveNormalize ["  ", "x", "X "]
    ∧ ¬ (saveNormalize ["  ", "x", "X "]).Nodup := by
  refine ⟨by decide, by decide, by decide⟩
